import Mathlib

/-!
Shallow embedding of the haplotype-fraction inference engine implemented in
src/calling/haplotypes.rs of the Orthanq repository.

Modelling conventions:
- Rust f64/f32 arithmetic (allele frequencies, densities, LP data) is
  modelled over the rationals.
- a BTreeMap is modelled as its key-sorted association list; BitVec rows are
  Bool lists.
- a Rust panic (an unwrap of None or Err, or a todo marker) is modelled by
  the panicked constructor of PanicOr.
- the PHRED-to-log-probability map LogProb.from(PHREDProb(x)) applied to a
  selected density is kept abstract: the functions below take it as an
  explicit transform argument.
-/

namespace Orthanq

/-- Tri-state status of a haplotype at a variant site, after the
VariantStatus enum of src/calling/haplotypes.rs. -/
inductive VariantStatus
  | Present
  | NotPresent
  | Unknown
deriving DecidableEq

/-- Outcome of a Rust computation that can panic: ok carries the returned
value, panicked models a panic (an unwrap of None or Err, or a todo). -/
inductive PanicOr (α : Type)
  | ok (val : α)
  | panicked
deriving DecidableEq

/-- Typed error taxonomy named by spec section 7; the source code itself
never constructs such values (it unwraps instead), so this type only appears
in the spec-modelled comparison definitions. -/
inductive InterpError
  | DataInconsistency
  | OutOfRangeQuery
  | InfeasibleProgram
deriving DecidableEq

/-! ## AlleleFreqDist::vaf_query (src/calling/haplotypes.rs lines 762-772) -/

/-- last key-density pair of the distribution whose key is strictly below q:
the self.range(..vaf).next_back() call at line 766 of the source. -/
def lastBelow (d : List (ℚ × ℚ)) (q : ℚ) : Option (ℚ × ℚ) :=
  (d.filter (fun p => decide (p.1 < q))).getLast?

/-- first key-density pair of the distribution whose key is at or above q:
the self.range(vaf..).next() call at line 767 of the source. -/
def firstAtOrAbove (d : List (ℚ × ℚ)) (q : ℚ) : Option (ℚ × ℚ) :=
  (d.filter (fun p => decide (q ≤ p.1))).head?

/-- exact-key lookup: the contains_key plus get calls at lines 763-764. -/
def lookupDensity (d : List (ℚ × ℚ)) (q : ℚ) : Option ℚ :=
  (d.find? (fun p => decide (p.1 = q))).map (fun p => p.2)

/-- AlleleFreqDist::vaf_query (lines 762-772): an exact key hit transforms
the stored density directly; otherwise the neighbouring keys are looked up
and the density is linearly interpolated before the transform; the two
unwraps on the range lookups panic whenever either neighbour is missing. -/
def vaf_query (transform : ℚ → ℚ) (d : List (ℚ × ℚ)) (q : ℚ) : PanicOr ℚ :=
  match lookupDensity d q with
  | some y => PanicOr.ok (transform y)
  | none =>
    match lastBelow d q, firstAtOrAbove d q with
    | some p0, some p1 =>
        PanicOr.ok (transform (p0.2 + (q - p0.1) * (p1.2 - p0.2) / (p1.1 - p0.1)))
    | some _, none => PanicOr.panicked
    | none, _ => PanicOr.panicked

/-- Modelled from the spec: section 4.2's interpolator contract, which fails
with the typed OutOfRangeQuery error when the query has no neighbour on one
side, instead of panicking. Used only to contrast with vaf_query. -/
def vaf_query_specModel (transform : ℚ → ℚ) (d : List (ℚ × ℚ)) (q : ℚ) :
    Except InterpError ℚ :=
  match lookupDensity d q with
  | some y => Except.ok (transform y)
  | none =>
    match lastBelow d q, firstAtOrAbove d q with
    | some p0, some p1 =>
        Except.ok (transform (p0.2 + (q - p0.1) * (p1.2 - p0.2) / (p1.1 - p0.1)))
    | _, _ => Except.error InterpError.OutOfRangeQuery

/-! ### helper lemmas -/

theorem mem_of_getLastEq {α : Type} (l : List α) (a : α) :
    l.getLast? = some a → a ∈ l := by
  induction l with
  | nil => intro h; simp [List.getLast?] at h
  | cons x xs ih =>
    intro h
    cases xs with
    | nil =>
      simp [List.getLast?] at h
      simp [h]
    | cons y ys =>
      rw [List.getLast?_cons_cons] at h
      exact List.mem_cons_of_mem x (ih h)

theorem mem_of_headEq {α : Type} (l : List α) (a : α) (h : l.head? = some a) :
    a ∈ l := by
  cases l with
  | nil => simp at h
  | cons x xs =>
    simp [List.head?] at h
    simp [h]

theorem lastBelow_lt (d : List (ℚ × ℚ)) (q : ℚ) (p : ℚ × ℚ)
    (h : lastBelow d q = some p) : p.1 < q := by
  have hm := mem_of_getLastEq _ _ h
  have hmf := List.mem_filter.mp hm
  simpa using hmf.2

theorem firstAtOrAbove_ge (d : List (ℚ × ℚ)) (q : ℚ) (p : ℚ × ℚ)
    (h : firstAtOrAbove d q = some p) : q ≤ p.1 := by
  have hm := mem_of_headEq _ _ h
  have hmf := List.mem_filter.mp hm
  simpa using hmf.2

theorem firstAtOrAbove_mem (d : List (ℚ × ℚ)) (q : ℚ) (p : ℚ × ℚ)
    (h : firstAtOrAbove d q = some p) : p ∈ d := by
  have hm := mem_of_headEq _ _ h
  exact (List.mem_filter.mp hm).1

theorem lookupDensity_none_ne (d : List (ℚ × ℚ)) (q : ℚ)
    (h : lookupDensity d q = none) : ∀ p ∈ d, p.1 ≠ q := by
  intro p hp
  unfold lookupDensity at h
  rw [Option.map_eq_none'] at h
  have := List.find?_eq_none.mp h p hp
  simpa using this

theorem interp_between (q x0 y0 x1 y1 : ℚ) (h0 : x0 < q) (h1 : q < x1) :
    min y0 y1 ≤ y0 + (q - x0) * (y1 - y0) / (x1 - x0) ∧
      y0 + (q - x0) * (y1 - y0) / (x1 - x0) ≤ max y0 y1 := by
  have hd : 0 < x1 - x0 := by linarith
  rcases le_total y0 y1 with hy | hy
  · rw [min_eq_left hy, max_eq_right hy]
    constructor
    · have hnn : 0 ≤ (q - x0) * (y1 - y0) / (x1 - x0) :=
        div_nonneg (mul_nonneg (by linarith) (by linarith)) (le_of_lt hd)
      linarith
    · have hkey : (q - x0) * (y1 - y0) / (x1 - x0) ≤ y1 - y0 := by
        rw [div_le_iff₀ hd]
        nlinarith
      linarith
  · rw [min_eq_right hy, max_eq_left hy]
    constructor
    · have hkey : y1 - y0 ≤ (q - x0) * (y1 - y0) / (x1 - x0) := by
        rw [le_div_iff₀ hd]
        nlinarith
      linarith
    · have hnp : (q - x0) * (y1 - y0) / (x1 - x0) ≤ 0 := by
        rw [div_le_iff₀ hd]
        nlinarith
      linarith

/-! ### claim theorems for the interpolator -/

/-- C5: when the query is exactly a key of the distribution, vaf_query
returns the direct transform of the stored density, with no interpolation. -/
theorem c5_exact_key (transform : ℚ → ℚ) (d : List (ℚ × ℚ)) (q y : ℚ)
    (h : lookupDensity d q = some y) :
    vaf_query transform d q = PanicOr.ok (transform y) := by
  unfold vaf_query
  rw [h]

theorem c5_exact_key_witness :
    lookupDensity [((1 : ℚ)/2, (9 : ℚ)/10)] (1/2) = some (9/10) ∧
      vaf_query (fun y => y + 1) [((1 : ℚ)/2, (9 : ℚ)/10)] (1/2)
        = PanicOr.ok ((9 : ℚ)/10 + 1) := by
  have hl : lookupDensity [((1 : ℚ)/2, (9 : ℚ)/10)] (1/2) = some (9/10) := by
    simp [lookupDensity]
  exact And.intro hl (c5_exact_key (fun y => y + 1) _ _ _ hl)

/-- C4: for a query strictly between the nearest lower and upper keys the
returned value is the transform of the linearly interpolated density
y0 + (q - x0) * (y1 - y0) / (x1 - x0), and that density lies between the two
stored densities. -/
theorem c4_interpolation (transform : ℚ → ℚ) (d : List (ℚ × ℚ))
    (q x0 y0 x1 y1 : ℚ)
    (hnone : lookupDensity d q = none)
    (h0 : lastBelow d q = some (x0, y0))
    (h1 : firstAtOrAbove d q = some (x1, y1)) :
    vaf_query transform d q
        = PanicOr.ok (transform (y0 + (q - x0) * (y1 - y0) / (x1 - x0))) ∧
      min y0 y1 ≤ y0 + (q - x0) * (y1 - y0) / (x1 - x0) ∧
      y0 + (q - x0) * (y1 - y0) / (x1 - x0) ≤ max y0 y1 := by
  have hx0 : x0 < q := lastBelow_lt d q (x0, y0) h0
  have hq1 : q ≤ x1 := firstAtOrAbove_ge d q (x1, y1) h1
  have hne : x1 ≠ q :=
    lookupDensity_none_ne d q hnone (x1, y1) (firstAtOrAbove_mem d q (x1, y1) h1)
  have hx1 : q < x1 := lt_of_le_of_ne hq1 (fun heq => hne heq.symm)
  refine And.intro ?_ (interp_between q x0 y0 x1 y1 hx0 hx1)
  unfold vaf_query
  rw [hnone, h0, h1]

theorem c4_interpolation_witness :
    vaf_query (fun y => y) [((0 : ℚ), (1 : ℚ)/100), ((1 : ℚ)/2, (9 : ℚ)/10)] (1/4)
        = PanicOr.ok ((1 : ℚ)/100 + (1/4 - 0) * ((9 : ℚ)/10 - 1/100) / (1/2 - 0)) ∧
      min ((1 : ℚ)/100) ((9 : ℚ)/10)
        ≤ (1 : ℚ)/100 + (1/4 - 0) * ((9 : ℚ)/10 - 1/100) / (1/2 - 0) ∧
      (1 : ℚ)/100 + (1/4 - 0) * ((9 : ℚ)/10 - 1/100) / (1/2 - 0)
        ≤ max ((1 : ℚ)/100) ((9 : ℚ)/10) := by
  refine c4_interpolation (fun y => y) _ _ _ _ _ _ ?_ ?_ ?_
  · simp [lookupDensity] <;> norm_num
  · simp [lastBelow] <;> norm_num
  · simp [firstAtOrAbove] <;> norm_num

/-- C6 (amended): when the query lies strictly outside the span of the
distribution's keys, vaf_query panics on the unwrap of the missing range
neighbour: no density is produced, no extrapolation happens, and no typed
error value is returned. -/
theorem c6_out_of_range_panics (transform : ℚ → ℚ) (d : List (ℚ × ℚ)) (q : ℚ)
    (h : (∀ p ∈ d, q < p.1) ∨ (∀ p ∈ d, p.1 < q)) :
    vaf_query transform d q = PanicOr.panicked := by
  have hnone : lookupDensity d q = none := by
    unfold lookupDensity
    rw [Option.map_eq_none']
    rw [List.find?_eq_none]
    intro p hp
    cases h with
    | inl hall => simpa using ne_of_gt (hall p hp)
    | inr hall => simpa using ne_of_lt (hall p hp)
  cases h with
  | inl hall =>
    have hlast : lastBelow d q = none := by
      unfold lastBelow
      have hf : d.filter (fun p => decide (p.1 < q)) = [] := by
        rw [List.filter_eq_nil_iff]
        intro p hp
        simpa using not_lt.mpr (le_of_lt (hall p hp))
      rw [hf]
      rfl
    unfold vaf_query
    rw [hnone, hlast]
  | inr hall =>
    have hfirst : firstAtOrAbove d q = none := by
      unfold firstAtOrAbove
      have hf : d.filter (fun p => decide (q ≤ p.1)) = [] := by
        rw [List.filter_eq_nil_iff]
        intro p hp
        simpa using not_le.mpr (hall p hp)
      rw [hf]
      rfl
    unfold vaf_query
    rw [hnone, hfirst]
    cases lastBelow d q <;> rfl

theorem c6_out_of_range_panics_witness :
    vaf_query (fun y => y) [((1 : ℚ)/2, (9 : ℚ)/10)] (1/4) = PanicOr.panicked := by
  refine c6_out_of_range_panics (fun y => y) _ _ (Or.inl ?_)
  intro p hp
  simp at hp
  subst hp
  norm_num

/-- C6 counterexample: at a query below the only key of a distribution the
source computation panics on an unwrap, whereas the spec's contract demands
the typed OutOfRangeQuery failure; the two disagree at this input. -/
theorem c6_counterexample :
    vaf_query (fun y => y) [((1 : ℚ)/2, (9 : ℚ)/10)] (1/4) = PanicOr.panicked ∧
      vaf_query_specModel (fun y => y) [((1 : ℚ)/2, (9 : ℚ)/10)] (1/4)
        = Except.error InterpError.OutOfRangeQuery := by
  have hnone : lookupDensity [((1 : ℚ)/2, (9 : ℚ)/10)] (1/4) = none := by
    simp [lookupDensity] <;> norm_num
  have hlast : lastBelow [((1 : ℚ)/2, (9 : ℚ)/10)] (1/4) = none := by
    simp [lastBelow] <;> norm_num
  constructor
  · unfold vaf_query
    rw [hnone, hlast]
  · unfold vaf_query_specModel
    rw [hnone, hlast]

/-! ## linear program prefilter (src/calling/haplotypes.rs lines 277-384 and
collect_constraints_and_variants, lines 833-874) -/

/-- per-variant row of the candidate matrix: statuses and coverage bits in
haplotype panel order (the Vec of VariantStatus and the BitVec of a
CandidateMatrix entry). -/
structure VariantRow where
  genotypes : List VariantStatus
  coverage : List Bool
deriving DecidableEq

/-- per-variant call: the variant id and the point estimate of the observed
allele frequency (the f32 AF value of VariantCalls). -/
structure VariantCall where
  vid : ℤ
  af : ℚ
deriving DecidableEq

/-- counter loop of collect_constraints_and_variants (lines 853-858): number
of the first n haplotype columns whose coverage bit is set. -/
def coveredCount (cov : List Bool) (n : ℕ) : ℕ :=
  ((List.range n).filter (fun i => cov.getD i false)).length

/-- affine expression over the n fraction variables: per-variable coefficient
list plus a constant term (the fragment of a good_lp Expression the program
actually builds). -/
structure LinExpr where
  coeffs : List ℚ
  constTerm : ℚ
deriving DecidableEq

/-- value of an affine expression at an assignment of the fraction
variables. -/
def LinExpr.eval (e : LinExpr) (f : List ℚ) : ℚ :=
  ((List.range e.coeffs.length).map (fun i => e.coeffs.getD i 0 * f.getD i 0)).sum
    + e.constTerm

/-- coefficients of fraction_cont (lines 860-867): 1 for each haplotype whose
status at the row is Present, 0 otherwise. -/
def presentCoeffs (gt : List VariantStatus) (n : ℕ) : List ℚ :=
  (List.range n).map (fun i =>
    if gt.getD i VariantStatus.Unknown = VariantStatus.Present then (1 : ℚ) else 0)

/-- constraint-collection loop of collect_constraints_and_variants (lines
847-872): the candidate matrix rows arrive zipped with the variant calls, and
a residual expression fraction_cont minus af is pushed exactly for the rows
whose first n coverage bits are all set. -/
def collectConstraints : List (VariantRow × VariantCall) → ℕ → List LinExpr
  | [], _ => []
  | (row, call) :: rest, n =>
    if coveredCount row.coverage n = n then
      LinExpr.mk (presentCoeffs row.genotypes n) (-call.af)
        :: collectConstraints rest n
    else
      collectConstraints rest n

/-- haplotype_dict of collect_constraints_and_variants (lines 843-866): for
haplotype index h, the variant ids of the fully covered rows at which h has
status Present, in row order. -/
def haplotypeDict (input : List (VariantRow × VariantCall)) (n : ℕ) (h : ℕ) :
    List ℤ :=
  input.filterMap (fun rc =>
    if coveredCount rc.1.coverage n = n ∧
        rc.1.genotypes.getD h VariantStatus.Unknown = VariantStatus.Present then
      some rc.2.vid
    else none)

/-- linear program assembled by Caller::linear_program (lines 283-328): the n
fraction variables are bounded to the unit interval and must sum to one, one
auxiliary t variable per residual is bounded to the unit interval, each
residual r contributes the constraints t >= r and t >= -r, and the objective
is the sum of the t variables. -/
structure LPModel where
  nFracVars : ℕ
  fracLowerBound : ℚ
  fracUpperBound : ℚ
  fracSumTarget : ℚ
  tLowerBound : ℚ
  tUpperBound : ℚ
  residuals : List LinExpr
deriving DecidableEq

def linear_program_model (input : List (VariantRow × VariantCall)) (n : ℕ) :
    LPModel :=
  LPModel.mk n 0 1 1 0 1 (collectConstraints input n)

/-- satisfaction of the model's constraints by an assignment f of the
fraction variables and t of the auxiliary variables, from the variable
bounds (lines 286-287 and 303-304) and the constraints added in lines
313-324. -/
def LPModel.feasible (m : LPModel) (f t : List ℚ) : Prop :=
  f.length = m.nFracVars ∧
  t.length = m.residuals.length ∧
  (∀ x ∈ f, m.fracLowerBound ≤ x ∧ x ≤ m.fracUpperBound) ∧
  (∀ x ∈ t, m.tLowerBound ≤ x ∧ x ≤ m.tUpperBound) ∧
  f.sum = m.fracSumTarget ∧
  ∀ j, j < m.residuals.length →
    (m.residuals.getD j (LinExpr.mk [] 0)).eval f ≤ t.getD j 0 ∧
    -((m.residuals.getD j (LinExpr.mk [] 0)).eval f) ≤ t.getD j 0

/-- objective of lines 306-311: the sum of the auxiliary variables, to be
minimised. -/
def LPModel.objective (_ : LPModel) (t : List ℚ) : ℚ := t.sum

/-- Modelled from the spec: the residual list of section 4.3 — for every
fully covered variant, and for no other, the affine expression whose value is
the sum of the Present fraction variables minus the observed allele
frequency. -/
def specResiduals (input : List (VariantRow × VariantCall)) (n : ℕ) :
    List LinExpr :=
  (input.filter (fun rc => decide (coveredCount rc.1.coverage n = n))).map
    (fun rc => LinExpr.mk (presentCoeffs rc.1.genotypes n) (-rc.2.af))

/-- Modelled from the spec: sum over the haplotypes with status Present of
the fraction variables. -/
def presentFractionSum (gt : List VariantStatus) (f : List ℚ) (n : ℕ) : ℚ :=
  ((List.range n).map (fun i =>
    if gt.getD i VariantStatus.Unknown = VariantStatus.Present
    then f.getD i 0 else 0)).sum

/-- selection loop of lines 333-340: haplotype indices whose solved fraction
is at least 0.01, in panel order (the BTreeMap holding them is keyed by the
haplotype names, which are themselves in panel order). -/
def lpSelectedHaplotypes (sol : List ℚ) : List ℕ :=
  (List.range sol.length).filter (fun i => decide ((1 : ℚ)/100 ≤ sol.getD i 0))

/-- expansion loop of lines 357-380: for each selected haplotype, every panel
haplotype whose haplotypeDict signature coincides with its own is appended.
The source iterates a HashMap in arbitrary order; panel order is used here —
membership in the result and the result's length do not depend on that
order. -/
def extendedHaplotypes (input : List (VariantRow × VariantCall)) (n : ℕ)
    (sol : List ℚ) : List ℕ :=
  (lpSelectedHaplotypes sol).foldr
    (fun fh acc =>
      ((List.range n).filter (fun h =>
        decide (haplotypeDict input n h = haplotypeDict input n fh))) ++ acc)
    []

/-- Caller::linear_program from the solver call on (lines 327-383): the
solver outcome is unwrapped, so an unsolvable program panics; on success the
threshold selection and the signature expansion produce the returned
haplotype list. -/
def linear_program_run (input : List (VariantRow × VariantCall)) (n : ℕ)
    (solverResult : Option (List ℚ)) : PanicOr (List ℕ) :=
  match solverResult with
  | none => PanicOr.panicked
  | some sol => PanicOr.ok (extendedHaplotypes input n sol)

/-- Modelled from the spec: section 4.3's failure contract — an unsolvable
program surfaces the typed InfeasibleProgram error, and a solved one yields
the deduplicated expansion. Used only to contrast with linear_program_run. -/
def prefilter_specModel (input : List (VariantRow × VariantCall)) (n : ℕ)
    (solverResult : Option (List ℚ)) : Except InterpError (List ℕ) :=
  match solverResult with
  | none => Except.error InterpError.InfeasibleProgram
  | some sol => Except.ok (extendedHaplotypes input n sol).dedup

/-! ### helper lemmas for the linear program -/

theorem collectConstraints_eq_spec (input : List (VariantRow × VariantCall))
    (n : ℕ) : collectConstraints input n = specResiduals input n := by
  induction input with
  | nil => rfl
  | cons rc rest ih =>
    obtain ⟨row, call⟩ := rc
    by_cases h : coveredCount row.coverage n = n
    · simp [collectConstraints, specResiduals, List.filter_cons, h] at ih ⊢
      exact ih
    · simp [collectConstraints, specResiduals, List.filter_cons, h] at ih ⊢
      exact ih

theorem getD_map_range (n i : ℕ) (g : ℕ → ℚ) (hi : i < n) :
    ((List.range n).map g).getD i 0 = g i := by
  rw [List.getD_eq_get?, List.get?_map, List.get?_range hi]
  rfl

theorem presentCoeffs_eval (gt : List VariantStatus) (n : ℕ) (c : ℚ)
    (f : List ℚ) :
    (LinExpr.mk (presentCoeffs gt n) c).eval f
      = presentFractionSum gt f n + c := by
  unfold LinExpr.eval presentFractionSum
  have hlen : (presentCoeffs gt n).length = n := by
    unfold presentCoeffs
    rw [List.length_map, List.length_range]
  rw [hlen]
  congr 1
  apply congrArg
  apply List.map_congr_left
  intro i hi
  have hi2 : i < n := List.mem_range.mp hi
  unfold presentCoeffs
  rw [getD_map_range n i _ hi2]
  by_cases hp : gt.getD i VariantStatus.Unknown = VariantStatus.Present
  · simp [hp]
  · simp [hp]

theorem feasible_iff_abs (m : LPModel) (f t : List ℚ) :
    m.feasible f t ↔
      f.length = m.nFracVars ∧ t.length = m.residuals.length ∧
      (∀ x ∈ f, m.fracLowerBound ≤ x ∧ x ≤ m.fracUpperBound) ∧
      (∀ x ∈ t, m.tLowerBound ≤ x ∧ x ≤ m.tUpperBound) ∧
      f.sum = m.fracSumTarget ∧
      ∀ j, j < m.residuals.length →
        |(m.residuals.getD j (LinExpr.mk [] 0)).eval f| ≤ t.getD j 0 := by
  unfold LPModel.feasible
  refine and_congr Iff.rfl (and_congr Iff.rfl (and_congr Iff.rfl
    (and_congr Iff.rfl (and_congr Iff.rfl ?_))))
  constructor
  · intro h j hj
    have hh := h j hj
    exact abs_le.mpr ⟨by linarith [hh.2], hh.1⟩
  · intro h j hj
    have hh := abs_le.mp (h j hj)
    exact ⟨hh.2, by linarith [hh.1]⟩

theorem mem_foldr_append (L : List ℕ) (g : ℕ → List ℕ) (fh x : ℕ)
    (hfh : fh ∈ L) (hx : x ∈ g fh) :
    x ∈ L.foldr (fun a acc => g a ++ acc) [] := by
  induction L with
  | nil => cases hfh
  | cons a as ih =>
    rcases List.mem_cons.mp hfh with h | h
    · subst h
      exact List.mem_append.mpr (Or.inl hx)
    · exact List.mem_append.mpr (Or.inr (ih h))

/-! ### claim theorems for the linear program -/

/-- C1: the linear program holds a residual expression exactly for the fully
covered variants — each evaluating to the sum of the Present haplotypes'
fraction variables minus the observed allele frequency — every residual r is
linearized through an auxiliary variable t with the two constraints t >= r
and t >= -r (equivalently |r| <= t), the objective is the sum of the
auxiliary variables, and the fraction variables lie in the unit interval and
must sum to exactly one. -/
theorem c1_lp_formulation (input : List (VariantRow × VariantCall)) (n : ℕ)
    (f t : List ℚ) :
    (linear_program_model input n).residuals = specResiduals input n ∧
    (∀ row call,
      (LinExpr.mk (presentCoeffs (VariantRow.genotypes row) n)
          (-(VariantCall.af call))).eval f
        = presentFractionSum (VariantRow.genotypes row) f n
            - VariantCall.af call) ∧
    ((linear_program_model input n).feasible f t ↔
      f.length = n ∧ t.length = (specResiduals input n).length ∧
      (∀ x ∈ f, 0 ≤ x ∧ x ≤ 1) ∧ (∀ x ∈ t, 0 ≤ x ∧ x ≤ 1) ∧
      f.sum = 1 ∧
      ∀ j, j < (specResiduals input n).length →
        |((specResiduals input n).getD j (LinExpr.mk [] 0)).eval f|
          ≤ t.getD j 0) ∧
    (linear_program_model input n).objective t = t.sum := by
  have hres : (linear_program_model input n).residuals = specResiduals input n :=
    collectConstraints_eq_spec input n
  refine ⟨hres, ?_, ?_, rfl⟩
  · intro row call
    have h := presentCoeffs_eval (VariantRow.genotypes row) n
      (-(VariantCall.af call)) f
    rw [h]
    ring
  · rw [feasible_iff_abs]
    unfold linear_program_model at hres ⊢
    rw [show (LPModel.mk n 0 1 1 0 1 (collectConstraints input n)).residuals
          = collectConstraints input n from rfl,
        collectConstraints_eq_spec input n]

theorem c1_lp_formulation_witness :
    (linear_program_model [] 2).residuals = specResiduals [] 2 :=
  (c1_lp_formulation [] 2 [] []).1

/-- C2 (amended): each haplotype selected at the 0.01 threshold, and every
panel haplotype with the same haplotypeDict signature, appears in the
expanded output list. -/
theorem c2_signature_expansion (input : List (VariantRow × VariantCall))
    (n : ℕ) (sol : List ℚ) (h1 h2 : ℕ)
    (hlen : sol.length = n) (hh1 : h1 < n) (hh2 : h2 < n)
    (hsel : (1 : ℚ)/100 ≤ sol.getD h1 0)
    (hsig : haplotypeDict input n h2 = haplotypeDict input n h1) :
    h1 ∈ extendedHaplotypes input n sol ∧
      h2 ∈ extendedHaplotypes input n sol := by
  have hfh : h1 ∈ lpSelectedHaplotypes sol := by
    unfold lpSelectedHaplotypes
    rw [List.mem_filter]
    constructor
    · rw [List.mem_range, hlen]
      exact hh1
    · simpa using hsel
  constructor
  · apply mem_foldr_append (lpSelectedHaplotypes sol) _ h1 h1 hfh
    rw [List.mem_filter]
    exact ⟨List.mem_range.mpr hh1, by simp⟩
  · apply mem_foldr_append (lpSelectedHaplotypes sol) _ h1 h2 hfh
    rw [List.mem_filter]
    exact ⟨List.mem_range.mpr hh2, by simp [hsig]⟩

/-- input for the C2 witness and counterexample: one fully covered variant at
which both panel haplotypes are Present, so that both share a signature. -/
def c2In : List (VariantRow × VariantCall) :=
  [(VariantRow.mk [VariantStatus.Present, VariantStatus.Present] [true, true],
    VariantCall.mk 1 (1/2))]

theorem c2_signature_expansion_witness :
    0 ∈ extendedHaplotypes c2In 2 [1/2, 1/2] ∧
      1 ∈ extendedHaplotypes c2In 2 [1/2, 1/2] := by
  refine c2_signature_expansion c2In 2 [1/2, 1/2] 0 1 rfl ?_ ?_ ?_ ?_
  · norm_num
  · norm_num
  · show (1 : ℚ)/100 ≤ ([1/2, 1/2] : List ℚ).getD 0 0
    rw [List.getD_cons_zero]
    norm_num
  · rfl

/-- C2 counterexample: with both haplotypes selected and sharing a signature
the output list is [0, 1, 0, 1] — it is not deduplicated and its length
exceeds the panel size, contradicting the claim's deduplicated-set part. -/
theorem c2_counterexample :
    extendedHaplotypes c2In 2 [1/2, 1/2] = [0, 1, 0, 1] ∧
      ¬ (extendedHaplotypes c2In 2 [1/2, 1/2]).Nodup ∧
      2 < (extendedHaplotypes c2In 2 [1/2, 1/2]).length := by
  have e1 : lpSelectedHaplotypes [(1 : ℚ)/2, 1/2] = [0, 1] := by
    unfold lpSelectedHaplotypes
    norm_num [List.range_succ, List.filter_cons]
  have h : extendedHaplotypes c2In 2 [1/2, 1/2] = [0, 1, 0, 1] := by
    unfold extendedHaplotypes
    rw [e1]
    rfl
  refine ⟨h, ?_, ?_⟩
  · rw [h]
    decide
  · rw [h]
    decide

/-- C7 (amended): an unsolvable linear program makes the prefilter panic on
the unwrap of the solver result — no haplotype selection, default or partial,
is produced, and no typed error value is returned to the caller. -/
theorem c7_infeasible_panics (input : List (VariantRow × VariantCall))
    (n : ℕ) :
    linear_program_run input n none = PanicOr.panicked ∧
      ∀ hs : List ℕ, linear_program_run input n none ≠ PanicOr.ok hs := by
  constructor
  · rfl
  · intro hs h
    simp [linear_program_run] at h

theorem c7_infeasible_panics_witness :
    linear_program_run [] 0 none = PanicOr.panicked :=
  (c7_infeasible_panics [] 0).1

/-- C7 counterexample: with no solver solution the source panics, whereas the
spec's contract demands the typed InfeasibleProgram failure; the two disagree
on the same input. -/
theorem c7_counterexample :
    linear_program_run [] 0 none = PanicOr.panicked ∧
      prefilter_specModel [] 0 none
        = Except.error InterpError.InfeasibleProgram :=
  And.intro rfl rfl

/-! ## CandidateMatrix::new (src/calling/haplotypes.rs lines 778-795) -/

/-- CandidateMatrix::new: every variant row of HaplotypeVariants — a
key-sorted association list from haplotype name to (status, covered) — is
turned into the pair of its status column vector and its coverage bit
vector, in map order. The function performs no validation whatsoever and
always returns Ok. -/
def candidateMatrixNew
    (hv : List (ℤ × List (String × VariantStatus × Bool))) :
    Except InterpError (List (ℤ × (List VariantStatus × List Bool))) :=
  Except.ok (hv.map (fun r =>
    (r.1, (r.2.map (fun p => p.2.1), r.2.map (fun p => p.2.2)))))

/-- input for the C8 counterexample: the second row has a haplotype column
set different from the first row's. -/
def c8BadInput : List (ℤ × List (String × VariantStatus × Bool)) :=
  [(1, [("A", VariantStatus.Present, true)]),
   (2, [("A", VariantStatus.Present, true),
        ("B", VariantStatus.NotPresent, true)])]

/-- C8 counterexample: rows with differing haplotype column sets are accepted
without any DataInconsistency failure — construction succeeds and yields rows
of unequal column counts (1 and 2). -/
theorem c8_counterexample :
    candidateMatrixNew c8BadInput
        = Except.ok
            [(1, ([VariantStatus.Present], [true])),
             (2, ([VariantStatus.Present, VariantStatus.NotPresent],
                  [true, true]))] ∧
      candidateMatrixNew c8BadInput
        ≠ Except.error InterpError.DataInconsistency := by
  constructor
  · rfl
  · intro h
    simp [candidateMatrixNew] at h

/-- C8 (amended): CandidateMatrix::new never fails and checks nothing; each
output row mirrors its own input row's haplotype map, so whenever every input
row's haplotype key list equals the panel, every output row has the panel's
column count and its columns follow the panel's order. -/
theorem c8_matrix_shape (hv : List (ℤ × List (String × VariantStatus × Bool)))
    (panel : List String)
    (hpanel : ∀ r ∈ hv, r.2.map (fun p => p.1) = panel) :
    candidateMatrixNew hv
        = Except.ok (hv.map (fun r =>
            (r.1, (r.2.map (fun p => p.2.1), r.2.map (fun p => p.2.2))))) ∧
      ∀ r ∈ hv,
        (r.2.map (fun p => p.2.1)).length = panel.length ∧
        (r.2.map (fun p => p.2.2)).length = panel.length ∧
        ∀ i, i < panel.length →
          (r.2.map (fun p => p.1)).getD i "" = panel.getD i "" := by
  constructor
  · rfl
  · intro r hr
    have hk := hpanel r hr
    have hlen : r.2.length = panel.length := by
      rw [← hk, List.length_map]
    refine ⟨?_, ?_, ?_⟩
    · rw [List.length_map]
      exact hlen
    · rw [List.length_map]
      exact hlen
    · intro i _
      rw [hk]

theorem c8_matrix_shape_witness :
    candidateMatrixNew
        [((1 : ℤ), [("A", VariantStatus.Present, true),
                    ("B", VariantStatus.NotPresent, false)])]
      = Except.ok
          [((1 : ℤ), ([VariantStatus.Present, VariantStatus.NotPresent],
                      [true, false]))] := by
  have h := c8_matrix_shape
    [((1 : ℤ), [("A", VariantStatus.Present, true),
                ("B", VariantStatus.NotPresent, false)])]
    ["A", "B"] (by decide)
  exact h.1

/-! ## odds column of Caller::write_results (src/calling/haplotypes.rs lines
208-260) -/

/-- odds column of the report: the best (first) event's odds is the literal
integer 1 (best_odds at lines 212 and 221), and each later event's odds is
the exponential of its log-density minus the best log-density (line 258).
The exponential map stays abstract. -/
def oddsColumn (expF : ℚ → ℚ) : List ℚ → List ℚ
  | [] => []
  | best :: rest => 1 :: rest.map (fun d => expF (d - best))

/-- C9: with the ranked events given best first (log-densities
nonincreasing), the first reported odds is exactly 1, the first event's
log-density is maximal, and the odds of every later event is the exponential
of its log-density minus the best one. -/
theorem c9_odds (expF : ℚ → ℚ) (best : ℚ) (rest : List ℚ)
    (hsorted : (best :: rest).Pairwise (fun a b => b ≤ a)) :
    (oddsColumn expF (best :: rest)).headD 0 = 1 ∧
      (∀ x ∈ best :: rest, x ≤ best) ∧
      ∀ j, j < rest.length →
        (oddsColumn expF (best :: rest)).getD (j + 1) 0
          = expF (rest.getD j 0 - best) := by
  refine ⟨rfl, ?_, ?_⟩
  · intro x hx
    rcases List.mem_cons.mp hx with h | h
    · exact le_of_eq h
    · exact (List.pairwise_cons.mp hsorted).1 x h
  · intro j hj
    show (rest.map (fun d => expF (d - best))).getD j 0 = expF (rest.getD j 0 - best)
    rw [List.getD_eq_get?, List.getD_eq_get?, List.get?_map,
      List.get?_eq_get hj]
    rfl

theorem c9_odds_witness :
    (oddsColumn (fun x => x + 2) ((0 : ℚ) :: [-1])).headD 0 = 1 ∧
      (∀ x ∈ (0 : ℚ) :: [-1], x ≤ 0) ∧
      ∀ j, j < [(-1 : ℚ)].length →
        (oddsColumn (fun x => x + 2) ((0 : ℚ) :: [-1])).getD (j + 1) 0
          = (fun x => x + 2) ([(-1 : ℚ)].getD j 0 - 0) := by
  refine c9_odds (fun x => x + 2) 0 [-1] ?_
  rw [List.pairwise_cons]
  constructor
  · intro b hb
    rw [List.mem_singleton.mp hb]
    norm_num
  · exact List.pairwise_singleton _ _

/-! ## per-variant implied VAF of Caller::write_results
(src/calling/haplotypes.rs lines 151-189) -/

/-- accumulator of the per-variant loop: denom starts at 1, vaf_sum at 0 and
counter at 0 (lines 157-159). -/
structure VafAcc where
  denom : ℚ
  vafSum : ℚ
  counter : ℕ
deriving DecidableEq

/-- one haplotype step of the per-variant loop (lines 160-175): a Present and
covered haplotype adds its fraction to vaf_sum and bumps the counter, either
Unknown branch hits a todo and panics, a NotPresent uncovered haplotype
subtracts its fraction from denom, and anything else leaves the accumulator
unchanged. -/
def vafStep (acc : VafAcc) (st : VariantStatus) (cov : Bool) (f : ℚ) :
    PanicOr VafAcc :=
  if st = VariantStatus.Present ∧ cov = true then
    PanicOr.ok (VafAcc.mk acc.denom (acc.vafSum + f) (acc.counter + 1))
  else if st = VariantStatus.Unknown ∧ cov = true then
    PanicOr.panicked
  else if st = VariantStatus.Unknown ∧ cov = false then
    PanicOr.panicked
  else if st = VariantStatus.NotPresent ∧ cov = false then
    PanicOr.ok (VafAcc.mk (acc.denom - f) acc.vafSum acc.counter)
  else
    PanicOr.ok acc

/-- fold of vafStep over the (status, covered, fraction) triples of one
variant row, mirroring fractions.iter().enumerate() at line 160. -/
def vafFold : List (VariantStatus × Bool × ℚ) → VafAcc → PanicOr VafAcc
  | [], acc => PanicOr.ok acc
  | e :: rest, acc =>
    match vafStep acc e.1 e.2.1 e.2.2 with
    | PanicOr.ok acc2 => vafFold rest acc2
    | PanicOr.panicked => PanicOr.panicked

/-- f64::round on a rational: round half away from zero. -/
def rustRound (q : ℚ) : ℤ :=
  if 0 ≤ q then ⌊q + 1/2⌋ else ⌈q - 1/2⌉

/-- rounding to two decimal places of lines 179-180. -/
def roundTo2 (q : ℚ) : ℚ := (rustRound (q * 100) : ℚ) / 100

/-- per-variant body of write_results (lines 156-187): ok none when the
variant is skipped (empty AFD, or no Present-and-covered contribution),
ok (some (vaf, answer)) when the variant is reported — the AFD is then
queried at the rounded implied VAF through vaf_query (line 182), whose
internal unwraps panic when that VAF lies outside the AFD key span — and
panicked when an Unknown status is met in the loop. The division by denom
only happens when denom is positive (line 176). -/
def impliedVafForVariant (transform : ℚ → ℚ)
    (entries : List (VariantStatus × Bool × ℚ)) (afd : List (ℚ × ℚ)) :
    PanicOr (Option (ℚ × ℚ)) :=
  match vafFold entries (VafAcc.mk 1 0 0) with
  | PanicOr.panicked => PanicOr.panicked
  | PanicOr.ok acc =>
    let v := if 0 < acc.denom then acc.vafSum / acc.denom else acc.vafSum
    let vr := roundTo2 v
    if afd.isEmpty = false ∧ 0 < acc.counter then
      match vaf_query transform afd vr with
      | PanicOr.panicked => PanicOr.panicked
      | PanicOr.ok ansv => PanicOr.ok (some (vr, ansv))
    else PanicOr.ok none

/-- variant loop of write_results for one event (lines 153-188): each
variant row is processed with its AFD and the reported (vaf, answer) pairs
are collected; a panic at any variant — a todo on an Unknown status, or the
vaf_query unwraps — aborts the event's whole loop. -/
def eventVafQueries (transform : ℚ → ℚ) :
    List (List (VariantStatus × Bool × ℚ) × List (ℚ × ℚ)) →
      PanicOr (List (ℚ × ℚ))
  | [] => PanicOr.ok []
  | (entries, afd) :: rest =>
    match impliedVafForVariant transform entries afd with
    | PanicOr.panicked => PanicOr.panicked
    | PanicOr.ok none => eventVafQueries transform rest
    | PanicOr.ok (some v) =>
      match eventVafQueries transform rest with
      | PanicOr.panicked => PanicOr.panicked
      | PanicOr.ok vs => PanicOr.ok (v :: vs)

/-- Modelled from the spec: sum over the haplotypes Present and covered at
the variant of the event's fractions. -/
def pcSum : List (VariantStatus × Bool × ℚ) → ℚ
  | [] => 0
  | e :: rest =>
    (if e.1 = VariantStatus.Present ∧ e.2.1 = true then e.2.2 else 0)
      + pcSum rest

/-- Modelled from the spec: sum over the haplotypes NotPresent and not
covered at the variant of the event's fractions. -/
def npuSum : List (VariantStatus × Bool × ℚ) → ℚ
  | [] => 0
  | e :: rest =>
    (if e.1 = VariantStatus.NotPresent ∧ e.2.1 = false then e.2.2 else 0)
      + npuSum rest

/-- number of haplotypes Present and covered at the variant. -/
def pcCount : List (VariantStatus × Bool × ℚ) → ℕ
  | [] => 0
  | e :: rest =>
    (if e.1 = VariantStatus.Present ∧ e.2.1 = true then 1 else 0)
      + pcCount rest

/-- total event fraction mass over the row. -/
def fracTotal : List (VariantStatus × Bool × ℚ) → ℚ
  | [] => 0
  | e :: rest => e.2.2 + fracTotal rest

/-- Modelled from the spec: section 4.4's implied VAF — the
Present-and-covered mass over one minus the NotPresent-and-uncovered mass,
rounded to two decimal places. -/
def specImpliedVaf (entries : List (VariantStatus × Bool × ℚ)) : ℚ :=
  roundTo2 (pcSum entries / (1 - npuSum entries))

/-! ### helper lemmas for the per-variant computation -/

theorem vafFold_no_unknown (entries : List (VariantStatus × Bool × ℚ)) :
    ∀ acc : VafAcc, (∀ e ∈ entries, e.1 ≠ VariantStatus.Unknown) →
      vafFold entries acc
        = PanicOr.ok (VafAcc.mk (acc.denom - npuSum entries)
            (acc.vafSum + pcSum entries) (acc.counter + pcCount entries)) := by
  induction entries with
  | nil =>
    intro acc _
    simp [vafFold, npuSum, pcSum, pcCount]
  | cons e rest ih =>
    intro acc h
    obtain ⟨st, cov, fr⟩ := e
    have hst : st ≠ VariantStatus.Unknown := by
      have := h (st, cov, fr) (List.mem_cons_self _ _)
      simpa using this
    have hrest : ∀ e ∈ rest, e.1 ≠ VariantStatus.Unknown :=
      fun e he => h e (List.mem_cons_of_mem _ he)
    cases st with
    | Unknown => exact absurd rfl hst
    | Present =>
      cases cov with
      | true =>
        rw [show vafFold ((VariantStatus.Present, true, fr) :: rest) acc
              = vafFold rest (VafAcc.mk acc.denom (acc.vafSum + fr)
                  (acc.counter + 1)) from by simp [vafFold, vafStep]]
        rw [ih _ hrest]
        simp [npuSum, pcSum, pcCount, VafAcc.mk.injEq]
        constructor
        · ring
        · omega
      | false =>
        rw [show vafFold ((VariantStatus.Present, false, fr) :: rest) acc
              = vafFold rest acc from by simp [vafFold, vafStep]]
        rw [ih _ hrest]
        simp [npuSum, pcSum, pcCount]
    | NotPresent =>
      cases cov with
      | true =>
        rw [show vafFold ((VariantStatus.NotPresent, true, fr) :: rest) acc
              = vafFold rest acc from by simp [vafFold, vafStep]]
        rw [ih _ hrest]
        simp [npuSum, pcSum, pcCount]
      | false =>
        rw [show vafFold ((VariantStatus.NotPresent, false, fr) :: rest) acc
              = vafFold rest (VafAcc.mk (acc.denom - fr) acc.vafSum
                  acc.counter) from by simp [vafFold, vafStep]]
        rw [ih _ hrest]
        simp [npuSum, pcSum, pcCount, VafAcc.mk.injEq]
        ring

theorem pcSum_nonneg (entries : List (VariantStatus × Bool × ℚ))
    (h : ∀ e ∈ entries, 0 ≤ e.2.2) : 0 ≤ pcSum entries := by
  induction entries with
  | nil => simp [pcSum]
  | cons e rest ih =>
    have he := h e (List.mem_cons_self _ _)
    have hrest := ih (fun x hx => h x (List.mem_cons_of_mem _ hx))
    by_cases hc : e.1 = VariantStatus.Present ∧ e.2.1 = true
    · simp only [pcSum, if_pos hc]
      linarith
    · simp only [pcSum, if_neg hc]
      linarith

theorem pc_add_npu_le_total (entries : List (VariantStatus × Bool × ℚ))
    (h : ∀ e ∈ entries, 0 ≤ e.2.2) :
    pcSum entries + npuSum entries ≤ fracTotal entries := by
  induction entries with
  | nil => simp [pcSum, npuSum, fracTotal]
  | cons e rest ih =>
    have he := h e (List.mem_cons_self _ _)
    have hrest := ih (fun x hx => h x (List.mem_cons_of_mem _ hx))
    by_cases h1 : e.1 = VariantStatus.Present ∧ e.2.1 = true
    · have h2 : ¬ (e.1 = VariantStatus.NotPresent ∧ e.2.1 = false) := by
        intro h2
        rw [h1.1] at h2
        exact absurd h2.1 (by simp)
      simp only [pcSum, npuSum, fracTotal, if_pos h1, if_neg h2]
      linarith
    · by_cases h2 : e.1 = VariantStatus.NotPresent ∧ e.2.1 = false
      · simp only [pcSum, npuSum, fracTotal, if_neg h1, if_pos h2]
        linarith
      · simp only [pcSum, npuSum, fracTotal, if_neg h1, if_neg h2]
        linarith

/-! ### claim theorems for the per-variant computation -/

/-- C3: for an event with nonnegative fractions summing to one, a variant row
free of Unknown statuses and a nonempty distribution whose query at the
implied VAF succeeds, the per-variant computation reports the implied VAF —
the Present-and-covered mass divided by one minus the
NotPresent-and-uncovered mass, rounded to two decimals — together with the
query answer, exactly when some haplotype is Present and covered there, and
skips the variant otherwise. -/
theorem c3_implied_vaf (transform : ℚ → ℚ)
    (entries : List (VariantStatus × Bool × ℚ)) (afd : List (ℚ × ℚ)) (ans : ℚ)
    (hu : ∀ e ∈ entries, e.1 ≠ VariantStatus.Unknown)
    (hnn : ∀ e ∈ entries, 0 ≤ e.2.2)
    (htot : fracTotal entries = 1)
    (hafd : afd.isEmpty = false)
    (hq : vaf_query transform afd (specImpliedVaf entries) = PanicOr.ok ans) :
    impliedVafForVariant transform entries afd
      = if 0 < pcCount entries
        then PanicOr.ok (some (specImpliedVaf entries, ans))
        else PanicOr.ok none := by
  have hfold := vafFold_no_unknown entries (VafAcc.mk 1 0 0) hu
  have hle : pcSum entries + npuSum entries ≤ 1 := by
    have := pc_add_npu_le_total entries hnn
    rw [htot] at this
    exact this
  have hpc : (0 : ℚ) ≤ pcSum entries := pcSum_nonneg entries hnn
  unfold impliedVafForVariant
  rw [hfold]
  by_cases hd : (0 : ℚ) < 1 - npuSum entries
  · have hvr : roundTo2 (pcSum entries / (1 - npuSum entries))
        = specImpliedVaf entries := rfl
    simp only [hd, if_true, zero_add, hvr]
    by_cases hcnt : 0 < pcCount entries
    · simp [hcnt, hafd, hq]
    · simp [hcnt]
  · have hd0 : (1 : ℚ) - npuSum entries = 0 := by
      have h1 : (1 : ℚ) - npuSum entries ≥ pcSum entries := by linarith
      have h2 : (1 : ℚ) - npuSum entries ≤ 0 := not_lt.mp hd
      linarith
    have hpc0 : pcSum entries = 0 := by
      have h1 : pcSum entries ≤ 1 - npuSum entries := by linarith
      linarith [hd0 ▸ h1]
    have hvr : roundTo2 (pcSum entries) = specImpliedVaf entries := by
      unfold specImpliedVaf
      rw [hd0, hpc0]
      norm_num
    simp only [hd, if_false, zero_add, hvr]
    by_cases hcnt : 0 < pcCount entries
    · simp [hcnt, hafd, hq]
    · simp [hcnt]

theorem c3_implied_vaf_witness :
    impliedVafForVariant (fun y => y)
        [(VariantStatus.Present, true, 1/2),
         (VariantStatus.NotPresent, false, 1/2)]
        [((1 : ℚ), (9 : ℚ)/10)]
      = PanicOr.ok (some (1, (9 : ℚ)/10)) := by
  have hval : specImpliedVaf
      [(VariantStatus.Present, true, 1/2),
       (VariantStatus.NotPresent, false, 1/2)] = 1 := by
    simp [specImpliedVaf, pcSum, npuSum]
    norm_num [roundTo2, rustRound]
  have hq : vaf_query (fun y => y) [((1 : ℚ), (9 : ℚ)/10)]
      (specImpliedVaf
        [(VariantStatus.Present, true, 1/2),
         (VariantStatus.NotPresent, false, 1/2)]) = PanicOr.ok ((9 : ℚ)/10) := by
    rw [hval]
    simp [vaf_query, lookupDensity]
  have h := c3_implied_vaf (fun y => y)
    [(VariantStatus.Present, true, 1/2), (VariantStatus.NotPresent, false, 1/2)]
    [((1 : ℚ), (9 : ℚ)/10)] ((9 : ℚ)/10)
    (by intro e he; fin_cases he <;> simp)
    (by intro e he; fin_cases he <;> norm_num)
    (by simp [fracTotal]; norm_num)
    rfl hq
  have hcnt : 0 < pcCount [(VariantStatus.Present, true, (1 : ℚ)/2),
      (VariantStatus.NotPresent, false, (1 : ℚ)/2)] := by
    simp [pcCount]
  rw [h, if_pos hcnt, hval]

/-! ### C10: Unknown statuses and panics -/

theorem vafFold_panicked_iff (entries : List (VariantStatus × Bool × ℚ)) :
    ∀ acc : VafAcc,
      (vafFold entries acc = PanicOr.panicked ↔
        ∃ e ∈ entries, e.1 = VariantStatus.Unknown) := by
  induction entries with
  | nil =>
    intro acc
    simp [vafFold]
  | cons e rest ih =>
    intro acc
    obtain ⟨st, cov, fr⟩ := e
    cases st with
    | Unknown =>
      cases cov with
      | true =>
        simp [vafFold, vafStep]
      | false =>
        simp [vafFold, vafStep]
    | Present =>
      cases cov with
      | true =>
        rw [show vafFold ((VariantStatus.Present, true, fr) :: rest) acc
              = vafFold rest (VafAcc.mk acc.denom (acc.vafSum + fr)
                  (acc.counter + 1)) from by simp [vafFold, vafStep]]
        rw [ih]
        simp
      | false =>
        rw [show vafFold ((VariantStatus.Present, false, fr) :: rest) acc
              = vafFold rest acc from by simp [vafFold, vafStep]]
        rw [ih]
        simp
    | NotPresent =>
      cases cov with
      | true =>
        rw [show vafFold ((VariantStatus.NotPresent, true, fr) :: rest) acc
              = vafFold rest acc from by simp [vafFold, vafStep]]
        rw [ih]
        simp
      | false =>
        rw [show vafFold ((VariantStatus.NotPresent, false, fr) :: rest) acc
              = vafFold rest (VafAcc.mk (acc.denom - fr) acc.vafSum
                  acc.counter) from by simp [vafFold, vafStep]]
        rw [ih]
        simp

theorem impliedVaf_unknown_panicked (transform : ℚ → ℚ)
    (entries : List (VariantStatus × Bool × ℚ)) (afd : List (ℚ × ℚ))
    (h : ∃ e ∈ entries, e.1 = VariantStatus.Unknown) :
    impliedVafForVariant transform entries afd = PanicOr.panicked := by
  unfold impliedVafForVariant
  rw [(vafFold_panicked_iff entries (VafAcc.mk 1 0 0)).mpr h]

theorem eventVafQueries_unknown_panicked (transform : ℚ → ℚ)
    (rows : List (List (VariantStatus × Bool × ℚ) × List (ℚ × ℚ)))
    (h : ∃ r ∈ rows, ∃ e ∈ r.1, e.1 = VariantStatus.Unknown) :
    eventVafQueries transform rows = PanicOr.panicked := by
  induction rows with
  | nil =>
    obtain ⟨r, hr, _⟩ := h
    cases hr
  | cons row rest ih =>
    obtain ⟨r, hr, hex⟩ := h
    obtain ⟨entries, afd⟩ := row
    show (match impliedVafForVariant transform entries afd with
      | PanicOr.panicked => PanicOr.panicked
      | PanicOr.ok none => eventVafQueries transform rest
      | PanicOr.ok (some v) =>
        match eventVafQueries transform rest with
        | PanicOr.panicked => PanicOr.panicked
        | PanicOr.ok vs => PanicOr.ok (v :: vs)) = PanicOr.panicked
    rcases List.mem_cons.mp hr with heq | hmem
    · subst heq
      rw [impliedVaf_unknown_panicked transform entries afd hex]
    · have hrec : eventVafQueries transform rest = PanicOr.panicked :=
        ih ⟨r, hmem, hex⟩
      cases hv : impliedVafForVariant transform entries afd with
      | panicked => rfl
      | ok vopt =>
        cases vopt with
        | none => exact hrec
        | some v =>
          rw [hrec]

/-- C10: whenever the candidate matrix assigns the Unknown status to some
haplotype at a variant — whether or not that haplotype is covered there —
the per-variant computation hits a todo and panics instead of producing an
implied VAF, the per-event reporting loop over the variants panics as well,
and hence that loop terminates normally only when no Unknown status is
encountered during the per-event VAF computation. -/
theorem c10_unknown_panics :
    (∀ (transform : ℚ → ℚ) (entries : List (VariantStatus × Bool × ℚ))
        (afd : List (ℚ × ℚ)),
      (∃ e ∈ entries, e.1 = VariantStatus.Unknown) →
        impliedVafForVariant transform entries afd = PanicOr.panicked) ∧
    (∀ (transform : ℚ → ℚ)
        (rows : List (List (VariantStatus × Bool × ℚ) × List (ℚ × ℚ))),
      (∃ r ∈ rows, ∃ e ∈ r.1, e.1 = VariantStatus.Unknown) →
        eventVafQueries transform rows = PanicOr.panicked) ∧
    (∀ (transform : ℚ → ℚ)
        (rows : List (List (VariantStatus × Bool × ℚ) × List (ℚ × ℚ)))
        (vs : List (ℚ × ℚ)),
      eventVafQueries transform rows = PanicOr.ok vs →
        ∀ r ∈ rows, ∀ e ∈ r.1, e.1 ≠ VariantStatus.Unknown) := by
  refine ⟨impliedVaf_unknown_panicked, eventVafQueries_unknown_panicked, ?_⟩
  intro transform rows vs hok r hr e he heq
  have hp := eventVafQueries_unknown_panicked transform rows ⟨r, hr, e, he, heq⟩
  rw [hok] at hp
  cases hp

theorem c10_unknown_panics_witness :
    impliedVafForVariant (fun y => y) [(VariantStatus.Unknown, true, 1/2)] []
      = PanicOr.panicked :=
  c10_unknown_panics.1 (fun y => y) [(VariantStatus.Unknown, true, 1/2)] []
    ⟨(VariantStatus.Unknown, true, 1/2), List.mem_cons_self _ _, rfl⟩

end Orthanq
